import Mathlib

/-!
Verification of the match-pruning subsystem of the IM_OpenCV3.0 repository:
the GMS (grid-based motion statistics) consistency filter
(`src/libGMS/gms_matcher.cpp`) and the match-pruning dispatcher
(`src/match_pruner.cpp`).

The embedding is shallow: normalized point coordinates (C++ `float` values
in `cv::Point2f`) are modelled as exact rationals, vote counts as natural
numbers, and grid indices as integers (sentinels -1 and -2 included).  The
single floating-point comparison of the algorithm, the support-threshold
test `score < alpha * sqrt(thresh / numpair)`, is modelled exactly over the
rationals by squaring; the lemma `verifyDiscard_eq_real` relates the
squared form back to the real-number inequality.
-/

namespace IM

/-- Embedding of `GMS_Matcher::GetGridIndexLeft` (gms_matcher.cpp lines
147-176).  The C++ initializes `x = y = 0`, overwrites them according to
`type` (four grid-offset variants: unshifted, x shifted by half a cell,
y shifted, both shifted), and returns -1 when `x >= width` or
`y >= height`, else `x + y * width`. -/
def getGridIndexLeft (gw gh : ℕ) (px py : ℚ) (type : ℤ) : ℤ :=
  let xy : ℤ × ℤ := (0, 0)
  let xy : ℤ × ℤ := if type = 1 then (⌊px * gw⌋, ⌊py * gh⌋) else xy
  let xy : ℤ × ℤ := if type = 2 then (⌊px * gw + 1/2⌋, ⌊py * gh⌋) else xy
  let xy : ℤ × ℤ := if type = 3 then (⌊px * gw⌋, ⌊py * gh + 1/2⌋) else xy
  let xy : ℤ × ℤ := if type = 4 then (⌊px * gw + 1/2⌋, ⌊py * gh + 1/2⌋) else xy
  if xy.1 ≥ (gw : ℤ) ∨ xy.2 ≥ (gh : ℤ) then -1 else xy.1 + xy.2 * gw

/-- Embedding of `GMS_Matcher::GetGridIndexRight` (gms_matcher.cpp lines
178-183).  The C++ computes `x + y * width` with no bounds check of any
kind. -/
def getGridIndexRight (rw rh : ℕ) (px py : ℚ) : ℤ :=
  ⌊px * rw⌋ + ⌊py * rh⌋ * rw

/-- Embedding of `GMS_Matcher::NormalizePoints` applied to one keypoint
(gms_matcher.cpp lines 125-136): pixel coordinates divided by image width
and height. -/
def normalizePoint (px py : ℚ) (w h : ℕ) : ℚ × ℚ :=
  (px / w, py / h)

/-- Embedding of `GMS_Matcher::GetNB9` (gms_matcher.cpp lines 255-274) at
one slot.  The C++ fills `NB9[xi + 4 + yi * 3]` for `xi, yi` in `-1..1`,
so slot `s` corresponds to `xi = s % 3 - 1`, `yi = s / 3 - 1` (row-major
3x3 order); out-of-bounds neighbors keep the initial value -1. -/
def nb9 (gw gh idx s : ℕ) : ℤ :=
  let xx : ℤ := ((idx % gw : ℕ) : ℤ) + ((s % 3 : ℕ) : ℤ) - 1
  let yy : ℤ := ((idx / gw : ℕ) : ℤ) + ((s / 3 : ℕ) : ℤ) - 1
  if xx < 0 ∨ xx ≥ (gw : ℤ) ∨ yy < 0 ∨ yy ≥ (gh : ℤ) then -1
  else xx + yy * gw

/-- One row of the neighbor table built by
`GMS_Matcher::InitializeNeighbors` (gms_matcher.cpp lines 276-283): the
list returned by `GetNB9`. -/
def getNB9 (gw gh idx : ℕ) : List ℤ :=
  (List.range 9).map (nb9 gw gh idx)

/-- Number of valid (non -1) entries among the 9 neighbor slots of a
cell. -/
def countValidNB9 (gw gh idx : ℕ) : ℕ :=
  ((getNB9 gw gh idx).filter (fun v => decide (v ≠ -1))).length

/-- Bounds needed to evaluate one dimension of a 3x3 neighborhood: with
offset `d` of `0..2` the neighbor coordinate is `c + d - 1` and it lies
inside `0..n-1` iff `1 ≤ c + d ∧ c + d ≤ n`. -/
def okDim (n c d : ℕ) : Bool :=
  decide (1 ≤ c + d ∧ c + d ≤ n)

/-- Number of in-bounds coordinates among `c - 1, c, c + 1` in a
dimension of size `n`. -/
def cntDim (n c : ℕ) : ℕ :=
  ((List.range 3).filter (okDim n c)).length

/-- The table `kRotationPatterns` (gms_matcher.cpp lines 5-37): 8 fixed
3x3 permutations, copied row by row from the source. -/
def kRotationPatterns : List (List ℕ) :=
  [[1, 2, 3, 4, 5, 6, 7, 8, 9],
   [4, 1, 2, 7, 5, 3, 8, 9, 6],
   [7, 4, 1, 8, 5, 2, 9, 6, 3],
   [8, 7, 4, 9, 5, 1, 6, 3, 2],
   [9, 8, 7, 6, 5, 4, 3, 2, 1],
   [6, 9, 8, 3, 5, 7, 2, 1, 4],
   [3, 6, 9, 2, 5, 8, 1, 4, 7],
   [2, 3, 6, 1, 5, 9, 4, 7, 8]]

/-- Entry `j` of `kRotationPatterns[RotationType - 1]` (the row selected
at gms_matcher.cpp line 211). -/
def rotP (rot j : ℕ) : ℕ :=
  (kRotationPatterns.getD (rot - 1) []).getD j 0

/-- Row sum of the vote matrix for left cell `l` over the `R` right
cells, as computed by `cv::sum(mMotionStatistics.row(i))` at
gms_matcher.cpp line 214. -/
def rowSum (votes : ℕ → ℕ → ℕ) (R l : ℕ) : ℕ :=
  ((List.range R).map (votes l)).sum

/-- The argmax loop of `GMS_Matcher::VerifyCellPairs` (gms_matcher.cpp
lines 220-226): starting from `max_number = 0` and the sentinel -1 left
in `mCellPairs[i]` by `Run`, each right cell `j` with a vote count
strictly above the current maximum replaces the current choice. -/
def selectPairAux (row : ℕ → ℕ) (R : ℕ) : ℤ × ℕ :=
  (List.range R).foldl
    (fun acc j => if acc.2 < row j then ((j : ℤ), row j) else acc)
    (-1, 0)

/-- The tentative pairing chosen by the argmax loop. -/
def selectPair (row : ℕ → ℕ) (R : ℕ) : ℤ :=
  (selectPairAux row R).1

/-- Validity of neighbor slot `s` in the support loop of
`VerifyCellPairs` (gms_matcher.cpp lines 237-245): the left neighbor
`NB9_lt[j]` and the rotation-permuted right neighbor
`NB9_rt[CurrentRP[j] - 1]` must both differ from -1. -/
def validSlot (gw gh rw rh rot l r s : ℕ) : Bool :=
  decide (nb9 gw gh l s ≠ -1 ∧ nb9 rw rh r (rotP rot s - 1) ≠ -1)

/-- The valid neighbor slots of the support loop. -/
def validSlots (gw gh rw rh rot l r : ℕ) : List ℕ :=
  (List.range 9).filter (validSlot gw gh rw rh rot l r)

/-- The accumulated `score` of the support loop (gms_matcher.cpp line
242): sum of vote counts over the valid slot pairs. -/
def cellScore (votes : ℕ → ℕ → ℕ) (gw gh rw rh rot l r : ℕ) : ℕ :=
  ((validSlots gw gh rw rh rot l r).map
    (fun s => votes (nb9 gw gh l s).toNat (nb9 rw rh r (rotP rot s - 1)).toNat)).sum

/-- The accumulated `thresh` population sum of the support loop
(gms_matcher.cpp line 243): sum of left-cell populations over the valid
slot pairs. -/
def cellPopSum (pops : ℕ → ℕ) (gw gh rw rh rot l r : ℕ) : ℕ :=
  ((validSlots gw gh rw rh rot l r).map
    (fun s => pops (nb9 gw gh l s).toNat)).sum

/-- The `numpair` counter of the support loop (gms_matcher.cpp line
244). -/
def numValidPairs (gw gh rw rh rot l r : ℕ) : ℕ :=
  (validSlots gw gh rw rh rot l r).length

/-- The support-threshold test `score < mAlpha * sqrt(thresh / numpair)`
(gms_matcher.cpp lines 248-250), modelled exactly over the rationals.
For `alpha >= 0` and `n > 0`, `score < alpha * sqrt(popSum / n)` holds
iff `score^2 * n < alpha^2 * popSum` (both sides are non-negative, so
squaring preserves the strict order); `verifyDiscard_eq_real` below
proves this equivalence against the real-valued square root.  When
`n = 0` the C++ evaluates `0.0 / 0`, which is NaN (every call site has
an all-zero accumulated `thresh` in that case), and `score < NaN` is
false, so the pairing is kept; when `alpha < 0` the right-hand side is
non-positive and the comparison is false as well. -/
def verifyDiscard (alpha : ℚ) (score popSum n : ℕ) : Bool :=
  if n = 0 then false
  else decide (0 ≤ alpha ∧ (score : ℚ) ^ 2 * n < alpha ^ 2 * popSum)

/-- One iteration of the cell loop of `GMS_Matcher::VerifyCellPairs`
(gms_matcher.cpp lines 213-252) for left cell `l`: a row with no votes
keeps the sentinel -1; otherwise the argmax right cell is chosen and
demoted to the sentinel -2 when the support score falls below the
threshold.  The number of right cells is `rw * rh`
(`mGridNumberRight`). -/
def verifyCell (alpha : ℚ) (gw gh rw rh rot : ℕ) (votes : ℕ → ℕ → ℕ)
    (pops : ℕ → ℕ) (l : ℕ) : ℤ :=
  if rowSum votes (rw * rh) l = 0 then -1
  else
    let j := selectPair (votes l) (rw * rh)
    let jn := j.toNat
    if verifyDiscard alpha (cellScore votes gw gh rw rh rot l jn)
        (cellPopSum pops gw gh rw rh rot l jn)
        (numValidPairs gw gh rw rh rot l jn) then -2
    else j

/-- Input of one `GMS_Matcher` instance: normalized left and right point
lists, the converted match list `mvMatches` of `(queryIdx, trainIdx)` pairs, the left grid size
and the support factor alpha (constructor, gms_matcher.cpp lines
46-65). -/
structure GmsInput where
  P1 : List (ℚ × ℚ)
  P2 : List (ℚ × ℚ)
  mvMatches : List (ℕ × ℕ)
  gw : ℕ
  gh : ℕ
  alpha : ℚ

/-- Left grid cell of match `i` under offset variant `t`
(`mvMatchPairs[i].first`, gms_matcher.cpp line 191). -/
def lcellIdx (inp : GmsInput) (t : ℤ) (i : ℕ) : ℤ :=
  let m := inp.mvMatches.getD i (0, 0)
  let p := inp.P1.getD m.1 (0, 0)
  getGridIndexLeft inp.gw inp.gh p.1 p.2 t

/-- Right grid cell of match `i` (`mvMatchPairs[i].second`, computed once
for grid type 1 at gms_matcher.cpp line 195 and reused for the other
offsets). -/
def rcellIdx (inp : GmsInput) (rw rh : ℕ) (i : ℕ) : ℤ :=
  let m := inp.mvMatches.getD i (0, 0)
  let p := inp.P2.getD m.2 (0, 0)
  getGridIndexRight rw rh p.1 p.2

/-- Entry `(l, r)` of `mMotionStatistics` after
`GMS_Matcher::AssignMatchPairs` (gms_matcher.cpp lines 185-207) for
offset variant `t`: the number of matches whose left cell is `l` and
whose right cell is `r` (matches with a negative cell index are skipped
by the guard at line 201; `l` and `r` are non-negative here, so equality
subsumes the guard). -/
def votesOf (inp : GmsInput) (rw rh : ℕ) (t : ℤ) (l r : ℕ) : ℕ :=
  ((List.range inp.mvMatches.length).filter
    (fun i => decide (lcellIdx inp t i = (l : ℤ) ∧ rcellIdx inp rw rh i = (r : ℤ)))).length

/-- Entry `l` of `mNumberPointsInPerCellLeft` after `AssignMatchPairs`
(gms_matcher.cpp line 204): the number of matches in left cell `l` whose
right cell index is non-negative. -/
def popsOf (inp : GmsInput) (rw rh : ℕ) (t : ℤ) (l : ℕ) : ℕ :=
  ((List.range inp.mvMatches.length).filter
    (fun i => decide (lcellIdx inp t i = (l : ℤ) ∧ 0 ≤ rcellIdx inp rw rh i))).length

/-- Value of `mCellPairs[l]` after `AssignMatchPairs` and
`VerifyCellPairs` for offset variant `t` and rotation `rot`. -/
def cellPairOf (inp : GmsInput) (rw rh rot : ℕ) (t : ℤ) (l : ℕ) : ℤ :=
  verifyCell inp.alpha inp.gw inp.gh rw rh rot
    (votesOf inp rw rh t) (popsOf inp rw rh t) l

/-- The inlier-marking condition of `GMS_Matcher::Run` for one offset
variant (gms_matcher.cpp lines 314-319): matches whose left cell is the
sentinel -1 are skipped; otherwise the match is marked iff the cell
pairing of its left cell equals its right cell index. -/
def markInlier (inp : GmsInput) (rw rh rot : ℕ) (t : ℤ) (i : ℕ) : Bool :=
  let l := lcellIdx inp t i
  if l = -1 then false
  else decide (cellPairOf inp rw rh rot t l.toNat = rcellIdx inp rw rh i)

/-- Entry `i` of `mvbInlierMask` after `GMS_Matcher::Run` (gms_matcher.cpp
lines 296-320): starting from `false`, the four offset variants are
evaluated in order and each one may set the entry to `true` (entries are
never cleared inside the loop).  Distinct matches do not interact in the
marking loop, so the mask is computed entry by entry. -/
def runMask (inp : GmsInput) (rw rh rot : ℕ) (i : ℕ) : Bool :=
  ([1, 2, 3, 4] : List ℤ).foldl
    (fun m t => m || markInlier inp rw rh rot t i) false

/-- The inlier count returned by `GMS_Matcher::Run` (gms_matcher.cpp
lines 321-325). -/
def runCount (inp : GmsInput) (rw rh rot : ℕ) : ℕ :=
  ((List.range inp.mvMatches.length).filter (runMask inp rw rh rot)).length

/-- Right grid dimension set by `GMS_Matcher::SetScale` (gms_matcher.cpp
lines 285-294): `int(d * kScaleRatios[s])` with
`kScaleRatios = {1.0, 1.0 / 2, 1.0 / sqrt(2.0), sqrt(2.0), 2.0}`
(gms_matcher.cpp line 40), modelled with exact real arithmetic:
`⌊d / √2⌋ = Nat.sqrt (d² / 2)` and `⌊d * √2⌋ = Nat.sqrt (2 * d²)`. -/
def rightDim (d s : ℕ) : ℕ :=
  match s with
  | 0 => d
  | 1 => d / 2
  | 2 => Nat.sqrt (d * d / 2)
  | 3 => Nat.sqrt (2 * (d * d))
  | _ => 2 * d

/-- `Run` inlier count at scale index `s` (after `SetScale(s)`). -/
def runCountAt (inp : GmsInput) (s rot : ℕ) : ℕ :=
  runCount inp (rightDim inp.gw s) (rightDim inp.gh s) rot

/-- `Run` inlier mask at scale index `s` (after `SetScale(s)`). -/
def runMaskAt (inp : GmsInput) (s rot : ℕ) : ℕ → Bool :=
  runMask inp (rightDim inp.gw s) (rightDim inp.gh s) rot

/-- The `(scale, rotation)` hypothesis sequence evaluated by
`GMS_Matcher::GetInlierMask` (gms_matcher.cpp lines 79-120) when at
least one search is enabled: scale 0..4 outer and rotation 1..8 inner
when both are enabled, rotation 1..8 at scale 0 when only rotation is
enabled, scales 0..4 at rotation 1 when only scale is enabled. -/
def hypothesisList (withScale withRotation : Bool) : List (ℕ × ℕ) :=
  if withScale && withRotation then
    (List.range 5).flatMap (fun s => (List.range 8).map (fun r => (s, r + 1)))
  else if withRotation then
    (List.range 8).map (fun r => (0, r + 1))
  else
    (List.range 5).map (fun s => (s, 1))

/-- Embedding of `GMS_Matcher::GetInlierMask` (gms_matcher.cpp lines
67-123).  The result is the returned inlier count paired with the final
content of the output parameter `vbInliers`, whose content on entry is
`initMask`: with both searches disabled the mask is assigned
unconditionally from a single `Run`; otherwise `max_inlier` starts at 0
and the mask is assigned only when a hypothesis strictly exceeds the
current maximum. -/
def bestFold (inp : GmsInput) (hyps : List (ℕ × ℕ)) (acc : ℕ × (ℕ → Bool)) :
    ℕ × (ℕ → Bool) :=
  hyps.foldl
    (fun a h =>
      if a.1 < runCountAt inp h.1 h.2 then
        (runCountAt inp h.1 h.2, runMaskAt inp h.1 h.2)
      else a)
    acc

/-- Embedding of `GMS_Matcher::GetInlierMask` (gms_matcher.cpp lines
67-123), with the search loops factored through `bestFold`.  The result
is the returned inlier count paired with the final content of the output
parameter `vbInliers`, whose content on entry is `initMask`: with both
searches disabled the mask is assigned unconditionally from a single
`Run`; otherwise `max_inlier` starts at 0 and the mask is assigned only
when a hypothesis strictly exceeds the current maximum
(`num_inlier > max_inlier`). -/
def getInlierMask (inp : GmsInput) (initMask : ℕ → Bool)
    (withScale withRotation : Bool) : ℕ × (ℕ → Bool) :=
  if withScale = false ∧ withRotation = false then
    (runCountAt inp 0 1, runMaskAt inp 0 1)
  else
    bestFold inp (hypothesisList withScale withRotation) (0, initMask)

/-- One putative match of the dispatcher: a `cv::DMatch` with its query
keypoint index, reference (train) keypoint index and descriptor
distance. -/
structure DMatchQ where
  queryIdx : ℕ
  trainIdx : ℕ
  distance : ℚ
deriving DecidableEq

/-- The candidate-list length inference of `MatchPruner::PruneMatches`
(match_pruner.cpp line 36): `int knn = putative_matches_[0].size()`.
The subscript `[0]` of `std::vector` performs no bounds check, so on an
empty putative collection it is an out-of-bounds read (undefined
behavior); the fallible access is embedded as an `Option`, `none` on the
empty list.  No error type of any kind exists in the repository. -/
def pruneMatchesKnn : List (List DMatchQ) → Option ℕ
  | [] => none
  | q :: _ => some q.length

/-- Embedding of `MatchPruner::PruneMatchesByRatioTest` (match_pruner.cpp
lines 50-61): for each query's candidate list the score
`tmp_matches[0].distance / tmp_matches[1].distance` is computed
unconditionally and the best candidate is kept iff `score < ratio`.  The
subscripts `[0]` and `[1]` are unchecked, so a candidate list with fewer
than 2 entries is an out-of-bounds read (undefined behavior), embedded
as `none`; no `k >= 2` precondition is checked anywhere. -/
def pruneMatchesByRatioTest (ratio : ℚ) :
    List (List DMatchQ) → Option (List (DMatchQ × ℚ))
  | [] => some []
  | q :: rest =>
    match q with
    | m0 :: m1 :: _ =>
      match pruneMatchesByRatioTest ratio rest with
      | none => none
      | some tail =>
        if m0.distance / m1.distance < ratio then
          some ((m0, m0.distance / m1.distance) :: tail)
        else some tail
    | _ => none

/-! Helper lemmas shared by the claim theorems. -/

lemma floor_one_mul (n : ℕ) : ⌊(1 : ℚ) * n⌋ = n := by
  rw [one_mul, Int.floor_natCast]

lemma floor_nat_add_half (n : ℕ) : ⌊(n : ℚ) + 1/2⌋ = n := by
  rw [add_comm, Int.floor_add_nat]
  norm_num

lemma selectPairAux_succ (row : ℕ → ℕ) (R : ℕ) :
    selectPairAux row (R + 1) =
      if (selectPairAux row R).2 < row R then ((R : ℤ), row R)
      else selectPairAux row R := by
  unfold selectPairAux
  rw [List.range_succ, List.foldl_append]
  simp

/-- Invariant of the argmax loop: either the row seen so far is all
zero and the accumulator still holds the initial `(-1, 0)`, or the
accumulator holds the first index attaining the (positive) maximum of
the row prefix. -/
lemma selectPairAux_spec (row : ℕ → ℕ) (R : ℕ) :
    (selectPairAux row R = (-1, 0) ∧ ∀ j < R, row j = 0) ∨
    (∃ j0, j0 < R ∧ selectPairAux row R = ((j0 : ℤ), row j0) ∧ 0 < row j0 ∧
      (∀ j < R, row j ≤ row j0) ∧ ∀ j < j0, row j < row j0) := by
  induction R with
  | zero => exact Or.inl ⟨rfl, by omega⟩
  | succ R ih =>
    rw [selectPairAux_succ]
    rcases ih with ⟨heq, hall⟩ | ⟨j0, hj0R, heq, hpos, hmax, hlow⟩
    · rw [heq]
      by_cases hR : 0 < row R
      · simp only [hR, if_pos]
        right
        refine ⟨R, Nat.lt_succ_self R, rfl, hR, ?_, ?_⟩
        · intro j hj
          rcases Nat.lt_succ_iff_lt_or_eq.1 hj with hj' | rfl
          · exact (hall j hj').le.trans (Nat.zero_le _)
          · exact le_refl _
        · intro j hj
          rw [hall j hj]; exact hR
      · left
        have hR0 : row R = 0 := by omega
        have hcond : ¬ ((-1, 0) : ℤ × ℕ).2 < row R := by simpa using hR
        rw [if_neg hcond]
        refine ⟨rfl, ?_⟩
        intro j hj
        rcases Nat.lt_succ_iff_lt_or_eq.1 hj with hj' | rfl
        · exact hall j hj'
        · exact hR0
    · rw [heq]
      by_cases hlt : row j0 < row R
      · simp only [hlt, if_pos]
        right
        refine ⟨R, Nat.lt_succ_self R, rfl, by omega, ?_, ?_⟩
        · intro j hj
          rcases Nat.lt_succ_iff_lt_or_eq.1 hj with hj' | rfl
          · exact (hmax j hj').trans hlt.le
          · exact le_refl _
        · intro j hj
          exact lt_of_le_of_lt (hmax j hj) hlt
      · rw [if_neg (by simpa using hlt)]
        right
        refine ⟨j0, by omega, rfl, hpos, ?_, hlow⟩
        intro j hj
        rcases Nat.lt_succ_iff_lt_or_eq.1 hj with hj' | rfl
        · exact hmax j hj'
        · omega

lemma rowSum_eq_zero_iff (votes : ℕ → ℕ → ℕ) (R l : ℕ) :
    rowSum votes R l = 0 ↔ ∀ j < R, votes l j = 0 := by
  unfold rowSum
  rw [List.sum_eq_zero_iff]
  constructor
  · intro h j hj
    exact h (votes l j) (List.mem_map.2 ⟨j, List.mem_range.2 hj, rfl⟩)
  · rintro h v hv
    obtain ⟨j, hj, rfl⟩ := List.mem_map.1 hv
    exact h j (List.mem_range.1 hj)

lemma nb9_valid_iff (gw gh idx s : ℕ) :
    nb9 gw gh idx s ≠ -1 ↔
      (1 ≤ idx % gw + s % 3 ∧ idx % gw + s % 3 ≤ gw) ∧
      (1 ≤ idx / gw + s / 3 ∧ idx / gw + s / 3 ≤ gh) := by
  unfold nb9
  dsimp only
  split
  case isTrue h =>
    constructor
    · intro hc
      exact absurd rfl hc
    · intro hc
      exfalso
      rcases h with h | h | h | h <;> omega
  case isFalse h =>
    push_neg at h
    obtain ⟨h1, h2, h3, h4⟩ := h
    constructor
    · intro _
      constructor <;> constructor <;> omega
    · intro _ heq
      have hy : (0:ℤ) ≤ (((idx / gw : ℕ) : ℤ) + ((s / 3 : ℕ) : ℤ) - 1) * gw :=
        mul_nonneg (by omega) (Int.natCast_nonneg gw)
      have hx : (0:ℤ) ≤ ((idx % gw : ℕ) : ℤ) + ((s % 3 : ℕ) : ℤ) - 1 := by omega
      linarith [hx, hy, heq]

lemma nb9_valid_eq (gw gh idx s : ℕ) :
    (decide (nb9 gw gh idx s ≠ -1)) =
      (okDim gw (idx % gw) (s % 3) && okDim gh (idx / gw) (s / 3)) := by
  unfold okDim
  rw [← Bool.decide_and]
  exact decide_eq_decide.mpr (nb9_valid_iff gw gh idx s)

/-- The count of valid neighbor slots factorizes into the two
dimensions. -/
lemma countValidNB9_eq_mul (gw gh idx : ℕ) :
    countValidNB9 gw gh idx = cntDim gw (idx % gw) * cntDim gh (idx / gw) := by
  have hmap : countValidNB9 gw gh idx =
      ((List.range 9).filter (fun s => decide (nb9 gw gh idx s ≠ -1))).length := by
    unfold countValidNB9 getNB9
    rw [List.filter_map, List.length_map]
    rfl
  rw [hmap]
  simp only [nb9_valid_eq]
  rw [show List.range 9 = [0,1,2,3,4,5,6,7,8] from rfl]
  unfold cntDim
  rw [show List.range 3 = [0,1,2] from rfl]
  cases hx0 : okDim gw (idx % gw) 0 <;> cases hx1 : okDim gw (idx % gw) 1 <;>
    cases hx2 : okDim gw (idx % gw) 2 <;> cases hy0 : okDim gh (idx / gw) 0 <;>
    cases hy1 : okDim gh (idx / gw) 1 <;> cases hy2 : okDim gh (idx / gw) 2 <;>
    simp [List.filter, hx0, hx1, hx2, hy0, hy1, hy2]

lemma okDim_true (n c d : ℕ) (h : 1 ≤ c + d ∧ c + d ≤ n) : okDim n c d = true := by
  unfold okDim
  rw [decide_eq_true_eq]
  exact h

lemma okDim_false (n c d : ℕ) (h : ¬(1 ≤ c + d ∧ c + d ≤ n)) : okDim n c d = false := by
  unfold okDim
  rw [decide_eq_false_iff_not]
  exact h

lemma cntDim_low (n : ℕ) (h : 2 ≤ n) : cntDim n 0 = 2 := by
  have h0 := okDim_false n 0 0 (by omega)
  have h1 := okDim_true n 0 1 (by omega)
  have h2 := okDim_true n 0 2 (by omega)
  unfold cntDim
  rw [show List.range 3 = [0,1,2] from rfl]
  simp [List.filter, h0, h1, h2]

lemma cntDim_high (n : ℕ) (h : 2 ≤ n) : cntDim n (n - 1) = 2 := by
  have h0 := okDim_true n (n - 1) 0 (by omega)
  have h1 := okDim_true n (n - 1) 1 (by omega)
  have h2 := okDim_false n (n - 1) 2 (by omega)
  unfold cntDim
  rw [show List.range 3 = [0,1,2] from rfl]
  simp [List.filter, h0, h1, h2]

lemma cntDim_mid (n c : ℕ) (h1 : 1 ≤ c) (h2 : c ≤ n - 2) (hn : 2 ≤ n) :
    cntDim n c = 3 := by
  have e0 := okDim_true n c 0 (by omega)
  have e1 := okDim_true n c 1 (by omega)
  have e2 := okDim_true n c 2 (by omega)
  unfold cntDim
  rw [show List.range 3 = [0,1,2] from rfl]
  simp [List.filter, e0, e1, e2]

/-- The center slot (slot 4) of a cell's neighborhood is the cell
itself whenever the cell index lies in the grid. -/
lemma nb9_center (gw gh l : ℕ) (hl : l < gw * gh) : nb9 gw gh l 4 = (l : ℤ) := by
  have hgw : 0 < gw := by
    rcases Nat.eq_zero_or_pos gw with h | h
    · subst h; simp at hl
    · exact h
  have hx : (l : ℤ) % (gw : ℤ) < (gw : ℤ) := Int.emod_lt_of_pos _ (by omega)
  have hy : (l : ℤ) / (gw : ℤ) < (gh : ℤ) := by
    rw [Int.ediv_lt_iff_lt_mul (by omega)]
    rw [mul_comm]
    exact_mod_cast hl
  have hm0 : (0:ℤ) ≤ (l : ℤ) % (gw : ℤ) := Int.emod_nonneg _ (by omega)
  have hd0 : (0:ℤ) ≤ (l : ℤ) / (gw : ℤ) := Int.ediv_nonneg (by omega) (by omega)
  unfold nb9
  dsimp only
  rw [if_neg (by norm_num; omega)]
  norm_num
  linarith [Int.emod_add_ediv' (l : ℤ) (gw : ℤ)]

/-- Every row of `kRotationPatterns` keeps the center: entry 4 is 5. -/
lemma rotP_center (rot : ℕ) (h1 : 1 ≤ rot) (h8 : rot ≤ 8) : rotP rot 4 = 5 := by
  interval_cases rot <;> rfl

/-- The support loop always has at least one valid slot pair: the
center slot pairs the left cell with the chosen right cell, and both
are inside their grids. -/
lemma numValidPairs_pos (gw gh rw rh rot l r : ℕ) (h1 : 1 ≤ rot) (h8 : rot ≤ 8)
    (hl : l < gw * gh) (hr : r < rw * rh) :
    0 < numValidPairs gw gh rw rh rot l r := by
  have hv : validSlot gw gh rw rh rot l r 4 = true := by
    unfold validSlot
    rw [decide_eq_true_eq]
    constructor
    · rw [nb9_center gw gh l hl]
      exact fun h => by omega
    · rw [rotP_center rot h1 h8]
      show nb9 rw rh r 4 ≠ -1
      rw [nb9_center rw rh r hr]
      exact fun h => by omega
  have hmem : 4 ∈ validSlots gw gh rw rh rot l r :=
    List.mem_filter.2 ⟨by decide, hv⟩
  unfold numValidPairs
  exact List.length_pos.2 (List.ne_nil_of_mem hmem)

lemma exists_pos_of_rowSum_ne (votes : ℕ → ℕ → ℕ) (R l : ℕ)
    (h : rowSum votes R l ≠ 0) : ∃ j, j < R ∧ 0 < votes l j := by
  by_contra hc
  push_neg at hc
  exact h ((rowSum_eq_zero_iff votes R l).2 (fun j hj => by
    have := hc j hj; omega))

/-- The squared rational form used in `verifyDiscard` agrees with the
real-valued comparison `score < alpha * sqrt(popSum / n)` of the source
whenever `n > 0`, which justifies the embedding of the floating-point
threshold test. -/
lemma verifyDiscard_eq_real (alpha : ℚ) (score popSum n : ℕ) (hn : 0 < n) :
    verifyDiscard alpha score popSum n = true ↔
      ((score : ℝ) < (alpha : ℝ) * Real.sqrt ((popSum : ℝ) / (n : ℝ))) := by
  unfold verifyDiscard
  rw [if_neg (by omega)]
  rw [decide_eq_true_eq]
  have hsq : (0:ℝ) ≤ (popSum : ℝ) / (n : ℝ) := by positivity
  constructor
  · rintro ⟨ha, hlt⟩
    have ha' : (0:ℝ) ≤ (alpha : ℝ) := by exact_mod_cast ha
    have hlt' : ((score : ℝ)) ^ 2 * (n : ℝ) < ((alpha : ℝ)) ^ 2 * (popSum : ℝ) := by
      exact_mod_cast hlt
    rw [show (alpha : ℝ) * Real.sqrt ((popSum : ℝ) / (n : ℝ)) =
        Real.sqrt ((alpha : ℝ) ^ 2 * ((popSum : ℝ) / (n : ℝ))) by
      rw [Real.sqrt_mul (by positivity), Real.sqrt_sq ha']]
    rw [Real.lt_sqrt (by positivity)]
    rw [mul_div_assoc'] at *
    rw [lt_div_iff₀ (by positivity)]
    linarith [hlt']
  · intro hlt
    have hs0 : (0:ℝ) ≤ (score : ℝ) := by positivity
    have ha' : (0:ℝ) ≤ (alpha : ℝ) := by
      by_contra hneg
      push_neg at hneg
      have : (alpha : ℝ) * Real.sqrt ((popSum : ℝ) / (n : ℝ)) ≤ 0 :=
        mul_nonpos_of_nonpos_of_nonneg hneg.le (Real.sqrt_nonneg _)
      linarith
    refine ⟨by exact_mod_cast ha', ?_⟩
    rw [show (alpha : ℝ) * Real.sqrt ((popSum : ℝ) / (n : ℝ)) =
        Real.sqrt ((alpha : ℝ) ^ 2 * ((popSum : ℝ) / (n : ℝ))) by
      rw [Real.sqrt_mul (by positivity), Real.sqrt_sq ha']] at hlt
    rw [Real.lt_sqrt hs0] at hlt
    rw [mul_div_assoc', lt_div_iff₀ (by positivity)] at hlt
    have : ((score : ℚ) : ℝ) ^ 2 * ((n : ℚ) : ℝ) < ((alpha : ℝ)) ^ 2 * ((popSum : ℚ) : ℝ) := by
      push_cast
      linarith [hlt]
    exact_mod_cast this

lemma markInlier_eq_true (inp : GmsInput) (rw rh rot : ℕ) (t : ℤ) (i : ℕ) :
    markInlier inp rw rh rot t i = true ↔
      (lcellIdx inp t i ≠ -1 ∧
       cellPairOf inp rw rh rot t (lcellIdx inp t i).toNat = rcellIdx inp rw rh i) := by
  unfold markInlier
  dsimp only
  split
  case isTrue h => simp [h]
  case isFalse h => simp [h]

lemma bestFold_cons (inp : GmsInput) (hd : ℕ × ℕ) (tl : List (ℕ × ℕ))
    (acc : ℕ × (ℕ → Bool)) :
    bestFold inp (hd :: tl) acc =
      bestFold inp tl
        (if acc.1 < runCountAt inp hd.1 hd.2 then
          (runCountAt inp hd.1 hd.2, runMaskAt inp hd.1 hd.2)
        else acc) := rfl

lemma bestFold_fst_mono (inp : GmsInput) (l : List (ℕ × ℕ)) (acc : ℕ × (ℕ → Bool)) :
    acc.1 ≤ (bestFold inp l acc).1 := by
  induction l generalizing acc with
  | nil => exact le_refl _
  | cons hd tl ih =>
    rw [bestFold_cons]
    by_cases hc : acc.1 < runCountAt inp hd.1 hd.2
    · rw [if_pos hc]
      exact hc.le.trans (ih (runCountAt inp hd.1 hd.2, runMaskAt inp hd.1 hd.2))
    · rw [if_neg hc]
      exact ih acc

lemma bestFold_fst_ge (inp : GmsInput) (l : List (ℕ × ℕ)) (acc : ℕ × (ℕ → Bool))
    (s r : ℕ) (hmem : (s, r) ∈ l) :
    runCountAt inp s r ≤ (bestFold inp l acc).1 := by
  induction l generalizing acc with
  | nil => cases hmem
  | cons hd tl ih =>
    rw [bestFold_cons]
    rcases List.mem_cons.1 hmem with rfl | hmem2
    · dsimp only
      by_cases hc : acc.1 < runCountAt inp s r
      · rw [if_pos hc]
        exact bestFold_fst_mono inp tl (runCountAt inp s r, runMaskAt inp s r)
      · rw [if_neg hc]
        have hle : runCountAt inp s r ≤ acc.1 := by omega
        exact hle.trans (bestFold_fst_mono inp tl acc)
    · by_cases hc : acc.1 < runCountAt inp hd.1 hd.2
      · rw [if_pos hc]
        exact ih _ hmem2
      · rw [if_neg hc]
        exact ih _ hmem2

lemma bestFold_zero (inp : GmsInput) (l : List (ℕ × ℕ)) (init : ℕ → Bool)
    (h : ∀ p ∈ l, runCountAt inp p.1 p.2 = 0) :
    bestFold inp l (0, init) = (0, init) := by
  induction l with
  | nil => rfl
  | cons hd tl ih =>
    rw [bestFold_cons]
    rw [if_neg (by rw [h hd (List.mem_cons_self hd tl)]; omega)]
    exact ih (fun p hp => h p (List.mem_cons_of_mem hd hp))

/-! The claim theorems. -/

/-- C1 (counterexample): the claim also asserts the right/reference
canonical grid index of a point with a coordinate exactly 1.0 to be -1,
but `GetGridIndexRight` has no bounds check: on a 15x15 right grid the
point (1, 1/2) gets index 120 (the start of the next row), not -1. -/
theorem claim1_right_boundary_cex : getGridIndexRight 15 15 1 (1/2) ≠ -1 := by
  unfold getGridIndexRight
  norm_num

/-- C1 (amended): a normalized point with a coordinate exactly 1.0 in
either axis gets grid index -1 from the left/query computation under
every one of the four offset variants (no wraparound, no clamping); the
right/reference canonical computation, however, performs no bounds
check and returns the non-negative raw index `x + y * width`, so such a
point is never excluded on the right side. -/
theorem claim1_boundary_amended (gw gh rw rh : ℕ) (px py : ℚ) (t : ℤ)
    (ht : t = 1 ∨ t = 2 ∨ t = 3 ∨ t = 4) (hb : px = 1 ∨ py = 1)
    (hx : 0 ≤ px) (hy : 0 ≤ py) :
    getGridIndexLeft gw gh px py t = -1 ∧ 0 ≤ getGridIndexRight rw rh px py := by
  constructor
  · rcases ht with rfl | rfl | rfl | rfl <;>
      rcases hb with rfl | rfl <;>
        simp [getGridIndexLeft, floor_one_mul, floor_nat_add_half,
          show ⌊(2⁻¹ : ℚ)⌋ = 0 by norm_num]
  · have h1 : (0 : ℤ) ≤ ⌊px * rw⌋ := Int.floor_nonneg.2 (by positivity)
    have h2 : (0 : ℤ) ≤ ⌊py * rh⌋ := Int.floor_nonneg.2 (by positivity)
    have h3 := mul_nonneg h2 (Int.natCast_nonneg rw)
    unfold getGridIndexRight
    omega

/-- C1 witness: the amended claim evaluated on a 15x15 grid at the
far-edge point (1, 1/2) under offset variant 2. -/
theorem claim1_boundary_amended_witness :
    getGridIndexLeft 15 15 1 (1/2) 2 = -1 ∧ 0 ≤ getGridIndexRight 15 15 1 (1/2) :=
  claim1_boundary_amended 15 15 15 15 1 (1/2) 2 (Or.inr (Or.inl rfl))
    (Or.inl rfl) (by norm_num) (by norm_num)

/-- C2: with zero putative correspondences the dispatcher does not fail
with an `EmptyInputError` (no error type exists in the repository);
`MatchPruner::PruneMatches` unconditionally reads element 0 of the empty
putative collection to infer k, an out-of-bounds access embedded here as
`none`. -/
theorem claim2_empty_input_oob : pruneMatchesKnn [] = none := rfl

/-- C3: selecting the ratio-test strategy with a candidate list of
length k < 2 does not fail with a `ConfigurationError` (no error type
exists in the repository); `MatchPruner::PruneMatchesByRatioTest` reads
candidate 1 unconditionally, an out-of-bounds access embedded here as
`none`. -/
theorem claim3_ratio_short_list_oob :
    pruneMatchesByRatioTest (4/5) [[⟨0, 0, 1⟩]] = none := rfl

/-- C4: a correspondence is marked inlier by `Run` iff, under at least
one of the 4 left-grid offset variants, its left cell is not the
sentinel -1 and the surviving pairing of its left cell equals its own
right cell — the sequential marking over the four offsets is exactly
the logical OR, and an unmarked offset never suppresses a mark obtained
under another. -/
theorem claim4_inlier_iff_any_offset (inp : GmsInput) (rw rh rot : ℕ) (i : ℕ) :
    runMask inp rw rh rot i = true ↔
      ∃ t : ℤ, (t = 1 ∨ t = 2 ∨ t = 3 ∨ t = 4) ∧
        lcellIdx inp t i ≠ -1 ∧
        cellPairOf inp rw rh rot t (lcellIdx inp t i).toNat = rcellIdx inp rw rh i := by
  have hfold : runMask inp rw rh rot i =
      ((((false || markInlier inp rw rh rot 1 i) || markInlier inp rw rh rot 2 i)
        || markInlier inp rw rh rot 3 i) || markInlier inp rw rh rot 4 i) := rfl
  rw [hfold]
  simp only [Bool.false_or, Bool.or_eq_true, markInlier_eq_true]
  constructor
  · rintro (((h | h) | h) | h)
    · exact ⟨1, Or.inl rfl, h⟩
    · exact ⟨2, Or.inr (Or.inl rfl), h⟩
    · exact ⟨3, Or.inr (Or.inr (Or.inl rfl)), h⟩
    · exact ⟨4, Or.inr (Or.inr (Or.inr rfl)), h⟩
  · rintro ⟨t, (rfl | rfl | rfl | rfl), h⟩
    · exact Or.inl (Or.inl (Or.inl h))
    · exact Or.inl (Or.inl (Or.inr h))
    · exact Or.inl (Or.inr h)
    · exact Or.inr h

/-- C5: for a left cell whose vote row has at least one positive entry,
the argmax loop selects a right cell attaining the maximum vote count
of the row, and every earlier right cell has a strictly smaller count —
ties therefore resolve to the lowest right-cell index. -/
theorem claim5_argmax_lowest (row : ℕ → ℕ) (R : ℕ)
    (h : ∃ j, j < R ∧ 0 < row j) :
    ∃ j0, j0 < R ∧ selectPair row R = (j0 : ℤ) ∧ 0 < row j0 ∧
      (∀ j < R, row j ≤ row j0) ∧ ∀ j < j0, row j < row j0 := by
  rcases selectPairAux_spec row R with ⟨_, hall⟩ | ⟨j0, hj0R, heq, hpos, hmax, hlow⟩
  · rcases h with ⟨j, hj, hpos⟩
    rw [hall j hj] at hpos
    exact absurd hpos (lt_irrefl 0)
  · exact ⟨j0, hj0R, by rw [selectPair, heq], hpos, hmax, hlow⟩

/-- C5 witness: applied to a one-cell row holding one vote. -/
theorem claim5_argmax_lowest_witness :
    ∃ j0 : ℕ, j0 < 1 ∧ selectPair (fun _ => 1) 1 = (j0 : ℤ) ∧ 0 < (fun _ => 1 : ℕ → ℕ) j0 ∧
      (∀ j < 1, (fun _ => 1 : ℕ → ℕ) j ≤ (fun _ => 1 : ℕ → ℕ) j0) ∧
      ∀ j < j0, (fun _ => 1 : ℕ → ℕ) j < (fun _ => 1 : ℕ → ℕ) j0 :=
  claim5_argmax_lowest (fun _ => 1) 1 ⟨0, Nat.zero_lt_one, Nat.one_pos⟩

/-- C6: enabling scale search, rotation search, or both in
`GetInlierMask` never yields a smaller returned inlier count than the
run with both searches disabled: every enabled hypothesis list contains
the disabled configuration (scale index 0, rotation 1) and the fold
keeps the maximum. -/
theorem claim6_search_monotonicity (inp : GmsInput) (init : ℕ → Bool) :
    (getInlierMask inp init false false).1 ≤ (getInlierMask inp init true false).1 ∧
    (getInlierMask inp init false false).1 ≤ (getInlierMask inp init false true).1 ∧
    (getInlierMask inp init false false).1 ≤ (getInlierMask inp init true true).1 := by
  have hdis : getInlierMask inp init false false = (runCountAt inp 0 1, runMaskAt inp 0 1) := by
    unfold getInlierMask
    rw [if_pos ⟨rfl, rfl⟩]
  rw [hdis]
  refine ⟨?_, ?_, ?_⟩ <;> unfold getInlierMask <;> rw [if_neg (by simp)]
  · exact bestFold_fst_ge inp _ (0, init) 0 1 (by decide)
  · exact bestFold_fst_ge inp _ (0, init) 0 1 (by decide)
  · exact bestFold_fst_ge inp _ (0, init) 0 1 (by decide)

/-- C7: for a left cell inside the grid whose vote row is not all zero,
the `numpair` divisor of the support-threshold computation for the
selected pairing is positive, so `alpha * sqrt(populationSum / numpair)`
never divides by zero: the center slot of every rotation pattern is 5,
pairing the left cell with the chosen right cell, and both are always
valid; the `numpair = 0` situation is unreachable. -/
theorem claim7_support_divisor_pos (gw gh rw rh rot l : ℕ) (votes : ℕ → ℕ → ℕ)
    (h1 : 1 ≤ rot) (h8 : rot ≤ 8) (hl : l < gw * gh)
    (hz : rowSum votes (rw * rh) l ≠ 0) :
    0 < numValidPairs gw gh rw rh rot l (selectPair (votes l) (rw * rh)).toNat := by
  obtain ⟨j, hj, hjpos⟩ := exists_pos_of_rowSum_ne votes (rw * rh) l hz
  obtain ⟨j0, hj0R, heq, _, _, _⟩ :=
    (selectPairAux_spec (votes l) (rw * rh)).resolve_left
      (fun ⟨_, hall⟩ => by have := hall j hj; omega)
  have hsel : (selectPair (votes l) (rw * rh)).toNat = j0 := by
    rw [selectPair, heq]
    exact Int.toNat_natCast j0
  rw [hsel]
  exact numValidPairs_pos gw gh rw rh rot l j0 h1 h8 hl hj0R

/-- C7 witness: a 1x1 left and right grid with one vote. -/
theorem claim7_support_divisor_pos_witness :
    0 < numValidPairs 1 1 1 1 1 0 (selectPair ((fun _ _ => 1 : ℕ → ℕ → ℕ) 0) (1 * 1)).toNat :=
  claim7_support_divisor_pos 1 1 1 1 1 0 (fun _ _ => 1) (by omega) (by omega)
    (by omega) (by decide)

/-- C8: after a cell-verification pass, the pairing entry of a left
cell is -1 exactly when its vote row is all zero, and a cell with at
least one vote ends in -2 or in a right-cell index inside
`[0, rw * rh)` — the three states are mutually exclusive and total. -/
theorem claim8_cellpair_states (alpha : ℚ) (gw gh rw rh rot : ℕ)
    (votes : ℕ → ℕ → ℕ) (pops : ℕ → ℕ) (l : ℕ) :
    (verifyCell alpha gw gh rw rh rot votes pops l = -1 ↔
      ∀ j < rw * rh, votes l j = 0) ∧
    ((∃ j, j < rw * rh ∧ votes l j ≠ 0) →
      verifyCell alpha gw gh rw rh rot votes pops l = -2 ∨
      ∃ r : ℕ, r < rw * rh ∧
        verifyCell alpha gw gh rw rh rot votes pops l = (r : ℤ)) := by
  by_cases hz : rowSum votes (rw * rh) l = 0
  · have hv : verifyCell alpha gw gh rw rh rot votes pops l = -1 := by
      unfold verifyCell
      rw [if_pos hz]
    have hall := (rowSum_eq_zero_iff votes (rw * rh) l).1 hz
    refine ⟨⟨fun _ => hall, fun _ => hv⟩, ?_⟩
    rintro ⟨j, hj, hne⟩
    exact absurd (hall j hj) hne
  · obtain ⟨j, hj, hjpos⟩ := exists_pos_of_rowSum_ne votes (rw * rh) l hz
    obtain ⟨j0, hj0R, heq, hpos, hmax, hlow⟩ :=
      (selectPairAux_spec (votes l) (rw * rh)).resolve_left
        (fun ⟨_, hall⟩ => by
          have := hall j hj
          omega)
    have hsel : selectPair (votes l) (rw * rh) = (j0 : ℤ) := by
      rw [selectPair, heq]
    have hv : verifyCell alpha gw gh rw rh rot votes pops l =
        if verifyDiscard alpha
            (cellScore votes gw gh rw rh rot l ((j0 : ℤ).toNat))
            (cellPopSum pops gw gh rw rh rot l ((j0 : ℤ).toNat))
            (numValidPairs gw gh rw rh rot l ((j0 : ℤ).toNat)) then -2
        else (j0 : ℤ) := by
      unfold verifyCell
      rw [if_neg hz]
      rw [hsel]
    constructor
    · constructor
      · intro h1
        exfalso
        rw [hv] at h1
        split at h1
        · omega
        · omega
      · intro hall
        exfalso
        have := hall j hj
        omega
    · intro _
      rw [hv]
      split
      · exact Or.inl rfl
      · exact Or.inr ⟨j0, hj0R, rfl⟩

/-- C8 witness: a cell with an all-zero vote row gets the sentinel
-1. -/
theorem claim8_cellpair_states_witness :
    verifyCell 6 1 1 1 1 1 (fun _ _ => 0) (fun _ => 0) 0 = -1 :=
  (claim8_cellpair_states 6 1 1 1 1 1 (fun _ _ => 0) (fun _ => 0) 0).1.2
    (fun _ _ => rfl)

/-- C9 (counterexample): the claim quantifies over every WxH grid, but
on the 1x1 grid the unique cell is a corner cell and its neighbor row
has exactly 1 valid entry, not 4. -/
theorem claim9_corner_1x1_cex :
    countValidNB9 1 1 0 = 1 ∧ countValidNB9 1 1 0 ≠ 4 := by
  decide

/-- C9 (amended): on every WxH grid with W, H at least 2, the neighbor
table gives each corner cell exactly 4 valid (non -1) entries of its 9
slots, each edge non-corner cell exactly 6, and each interior cell
exactly 9. -/
theorem claim9_neighbor_counts (gw gh idx : ℕ) (hw : 2 ≤ gw) (hh : 2 ≤ gh)
    (hidx : idx < gw * gh) :
    ((idx % gw = 0 ∨ idx % gw = gw - 1) ∧ (idx / gw = 0 ∨ idx / gw = gh - 1) →
      countValidNB9 gw gh idx = 4) ∧
    (((idx % gw = 0 ∨ idx % gw = gw - 1) ∧ 1 ≤ idx / gw ∧ idx / gw ≤ gh - 2) ∨
     ((1 ≤ idx % gw ∧ idx % gw ≤ gw - 2) ∧ (idx / gw = 0 ∨ idx / gw = gh - 1)) →
      countValidNB9 gw gh idx = 6) ∧
    ((1 ≤ idx % gw ∧ idx % gw ≤ gw - 2) ∧ (1 ≤ idx / gw ∧ idx / gw ≤ gh - 2) →
      countValidNB9 gw gh idx = 9) := by
  rw [countValidNB9_eq_mul]
  refine ⟨?_, ?_, ?_⟩
  · rintro ⟨hx | hx, hy | hy⟩ <;> rw [hx, hy] <;>
      first
        | rw [cntDim_low _ (by omega), cntDim_low _ (by omega)]
        | rw [cntDim_low _ (by omega), cntDim_high _ (by omega)]
        | rw [cntDim_high _ (by omega), cntDim_low _ (by omega)]
        | rw [cntDim_high _ (by omega), cntDim_high _ (by omega)]
  · rintro (⟨hx | hx, hy1, hy2⟩ | ⟨⟨hx1, hx2⟩, hy | hy⟩) <;>
      first
        | rw [hx, cntDim_low _ (by omega), cntDim_mid _ _ hy1 hy2 (by omega)]
        | rw [hx, cntDim_high _ (by omega), cntDim_mid _ _ hy1 hy2 (by omega)]
        | rw [hy, cntDim_mid _ _ hx1 hx2 (by omega), cntDim_low _ (by omega)]
        | rw [hy, cntDim_mid _ _ hx1 hx2 (by omega), cntDim_high _ (by omega)]
  · rintro ⟨⟨hx1, hx2⟩, hy1, hy2⟩
    rw [cntDim_mid _ _ hx1 hx2 (by omega), cntDim_mid _ _ hy1 hy2 (by omega)]

/-- C9 witness: the amended claim evaluated on a 3x3 grid at the
interior cell 4. -/
theorem claim9_neighbor_counts_witness : countValidNB9 3 3 4 = 9 :=
  (claim9_neighbor_counts 3 3 4 (by omega) (by omega) (by omega)).2.2
    ⟨⟨by omega, by omega⟩, by omega, by omega⟩

/-- C10: when at least one search is enabled and every hypothesis of
that search's evaluated `(scale, rotation)` sequence yields an inlier
count of 0, `GetInlierMask` returns 0 and the output mask keeps
whatever content it had on entry; only the path with both searches
disabled overwrites the output mask unconditionally. -/
theorem claim10_mask_frame (inp : GmsInput) (init : ℕ → Bool) :
    ((∀ p ∈ hypothesisList true true, runCountAt inp p.1 p.2 = 0) →
      getInlierMask inp init true true = (0, init)) ∧
    ((∀ p ∈ hypothesisList true false, runCountAt inp p.1 p.2 = 0) →
      getInlierMask inp init true false = (0, init)) ∧
    ((∀ p ∈ hypothesisList false true, runCountAt inp p.1 p.2 = 0) →
      getInlierMask inp init false true = (0, init)) ∧
    (getInlierMask inp init false false).2 = runMaskAt inp 0 1 := by
  refine ⟨?_, ?_, ?_, ?_⟩ <;> unfold getInlierMask
  · intro h
    rw [if_neg (by simp)]
    exact bestFold_zero inp _ init h
  · intro h
    rw [if_neg (by simp)]
    exact bestFold_zero inp _ init h
  · intro h
    rw [if_neg (by simp)]
    exact bestFold_zero inp _ init h
  · rw [if_pos ⟨rfl, rfl⟩]

/-- C10 witness: the empty input has inlier count 0 under every
evaluated hypothesis, and the entry mask is returned untouched. -/
theorem claim10_mask_frame_witness :
    getInlierMask ⟨[], [], [], 1, 1, 6⟩ (fun _ => false) true true = (0, fun _ => false) ∧
    getInlierMask ⟨[], [], [], 1, 1, 6⟩ (fun _ => false) true false = (0, fun _ => false) ∧
    getInlierMask ⟨[], [], [], 1, 1, 6⟩ (fun _ => false) false true = (0, fun _ => false) ∧
    (getInlierMask ⟨[], [], [], 1, 1, 6⟩ (fun _ => false) false false).2 =
      runMaskAt ⟨[], [], [], 1, 1, 6⟩ 0 1 :=
  ⟨(claim10_mask_frame ⟨[], [], [], 1, 1, 6⟩ (fun _ => false)).1 (fun _ _ => rfl),
   (claim10_mask_frame ⟨[], [], [], 1, 1, 6⟩ (fun _ => false)).2.1 (fun _ _ => rfl),
   (claim10_mask_frame ⟨[], [], [], 1, 1, 6⟩ (fun _ => false)).2.2.1 (fun _ _ => rfl),
   (claim10_mask_frame ⟨[], [], [], 1, 1, 6⟩ (fun _ => false)).2.2.2⟩

end IM
